import Mathlib

/-!
Shallow embedding of the `easycert` command-line tool (a thin wrapper around
the OpenSSL binary that maintains a small local certificate authority).

The repository contains several historical variants of the same program; the
definitions below are translated from the variant each claim cites:
`easycert.go`, `cmd.go`, `action.go`, `cmd_sign.go`, `cmd_req.go`,
`cmd_ca.go`, `cmd_info.go`, `cmd_lang.go`, `run.go`,
`cmd/easycert-wrap/cmd_ls.go` and the unnamed parts.

External effects (the filesystem, process spawning) are modelled explicitly:
the filesystem is a list of existing paths, the OpenSSL subprocess is modelled
by the argument vector the code hands to it, and `log.Fatal`/`os.Exit` are
modelled by `Except`/`Option` results.
-/

namespace EasyCert

/-! ## Path constants and layout (src/easycert.go, constants and `init`) -/

def DIR_ROOT : String := ".cert"
def NAME_CA : String := "ca"
def FILE_CONFIG : String := "openssl.cfg"

def EXT_CERT : String := ".crt"
def EXT_KEY : String := ".key"
def EXT_REQUEST : String := ".csr"

/-- `filepath.Join` on two clean, non-empty components. -/
def pathJoin (a b : String) : String := a ++ "/" ++ b

/-- Directory structure (`DirPath`, filled in by `init` from the home
directory). -/
structure DirPath where
  root : String
  cert : String
  key : String
  revok : String
  newCert : String
deriving Repr, DecidableEq

def dirPath (home : String) : DirPath :=
  let root := pathJoin home DIR_ROOT
  { root := root
    cert := pathJoin root "certs"
    newCert := pathJoin root "newcerts"
    key := pathJoin root "private"
    revok := pathJoin root "crl" }

/-- The bookkeeping file paths (`FilePath`, filled in by `init`). -/
def configPath (home : String) : String := pathJoin (dirPath home).root FILE_CONFIG
def indexPath (home : String) : String := pathJoin (dirPath home).root "index.txt"
def serialPath (home : String) : String := pathJoin (dirPath home).root "serial"

/-- Per-name paths, as set in `main` (src/easycert.go) for the
`-new-req`/`-sign`/`-ca` branch and by `setCertPath` in the subcommand
variants. -/
def certPath (home name : String) : String :=
  pathJoin (dirPath home).cert (name ++ EXT_CERT)
def keyPath (home name : String) : String :=
  pathJoin (dirPath home).key (name ++ EXT_KEY)
def requestPath (home name : String) : String :=
  pathJoin (dirPath home).root (name ++ EXT_REQUEST)
def srvConfigPath (home name : String) : String :=
  pathJoin (dirPath home).root (name ++ ".cfg")

/-! ## Filesystem model

The code only ever asks whether a path exists (`os.Stat` + `os.IsNotExist`),
creates paths, and removes paths, so a filesystem is a list of existing
paths. -/

def fileExists (fs : List String) (p : String) : Bool := fs.contains p

def removeFile (fs : List String) (p : String) : List String :=
  fs.filter (fun q => q ≠ p)

/-! ## `strconv.Atoi` (Go standard library)

Modelled from the Go standard library: optional sign, one or more decimal
digits, failing on the empty string, on any other character and on 64-bit
overflow. -/

def digitsToNat : List Char → Nat → Option Nat
  | [], acc => some acc
  | c :: cs, acc =>
      if '0' ≤ c ∧ c ≤ '9' then
        digitsToNat cs (acc * 10 + (c.toNat - '0'.toNat))
      else
        none

def goAtoi (s : String) : Option Int :=
  match s.data with
  | [] => none
  | c :: rest =>
      let (neg, digits) :=
        if c = '-' then (true, rest)
        else if c = '+' then (false, rest)
        else (false, c :: rest)
      match digits, digitsToNat digits 0 with
      | [], _ => none
      | _, none => none
      | _, some n =>
          let v : Int := if neg then -(n : Int) else (n : Int)
          if v < -(2 ^ 63) ∨ v ≥ 2 ^ 63 then none else some v

/-! ## The RSA key-size flag (src/easycert.go `rsaSizeFlag.Set`, duplicated in
src/cmd.go and src/unnamed/part_005/part_008) -/

def errMinSize : String := "key size must be at least of 2048"
def errSize : String := "key size must be multiple of 1024"

/-- `rsaSizeFlag.Set`: the first component is the stored size after the call
(`*s` is only assigned on success), the second is the returned error. -/
def rsaSizeSet (s : Int) (value : String) : Int × Option String :=
  match goAtoi value with
  | none => (s, some "invalid syntax")
  | some i =>
      if i < 2048 then (s, some errMinSize)
      else if i % 1024 ≠ 0 then (s, some errSize)
      else (i, none)

/-! ## `net.ParseIP` (Go standard library)

Modelled from the Go standard library of the era of this code: `dtoi`/`xtoi`
accumulate digits with the `big = 0xFFFFFF` cutoff, `parseIPv4` reads four
dot-separated decimal octets, `parseIPv6` reads colon-separated 16-bit hex
groups with at most one `::` ellipsis and an optional trailing IPv4, and
`ParseIP` dispatches on the first `.` or `:` in the string.  An address is a
list of bytes (16 for a parsed address; IPv4 addresses are stored in the
IPv4-in-IPv6 form, as `net.IPv4` does). -/

/-- Decimal digit accumulator `dtoi`: returns the value and the unconsumed
rest; fails when no digit is consumed or the value reaches `0xFFFFFF`. -/
def dtoiGo : List Char → Nat → Bool → Option (Nat × List Char)
  | [], n, seen => if seen then some (n, []) else none
  | c :: cs, n, seen =>
      if '0' ≤ c ∧ c ≤ '9' then
        let n2 := n * 10 + (c.toNat - '0'.toNat)
        if n2 ≥ 0xFFFFFF then none else dtoiGo cs n2 true
      else if seen then some (n, c :: cs) else none

def dtoi (s : List Char) : Option (Nat × List Char) := dtoiGo s 0 false

/-- Hexadecimal digit accumulator `xtoi`, with the same cutoff. -/
def xtoiGo : List Char → Nat → Bool → Option (Nat × List Char)
  | [], n, seen => if seen then some (n, []) else none
  | c :: cs, n, seen =>
      if '0' ≤ c ∧ c ≤ '9' then
        let n2 := n * 16 + (c.toNat - '0'.toNat)
        if n2 ≥ 0xFFFFFF then none else xtoiGo cs n2 true
      else if 'a' ≤ c ∧ c ≤ 'f' then
        let n2 := n * 16 + (c.toNat - 'a'.toNat) + 10
        if n2 ≥ 0xFFFFFF then none else xtoiGo cs n2 true
      else if 'A' ≤ c ∧ c ≤ 'F' then
        let n2 := n * 16 + (c.toNat - 'A'.toNat) + 10
        if n2 ≥ 0xFFFFFF then none else xtoiGo cs n2 true
      else if seen then some (n, c :: cs) else none

def xtoi (s : List Char) : Option (Nat × List Char) := xtoiGo s 0 false

/-- `net.IPv4`: the 16-byte IPv4-in-IPv6 representation. -/
def ipv4 (a b c d : Nat) : List Nat :=
  [0, 0, 0, 0, 0, 0, 0, 0, 0, 0, 0xFF, 0xFF, a, b, c, d]

/-- One octet of an IPv4 literal: `dtoi` followed by the `n > 0xFF` check. -/
def parseOctet (s : List Char) : Option (Nat × List Char) :=
  match dtoi s with
  | none => none
  | some (n, rest) => if n > 0xFF then none else some (n, rest)

/-- `parseIPv4`: four dot-separated octets consuming the whole string. -/
def parseIPv4 (s : List Char) : Option (List Nat) :=
  match parseOctet s with
  | none => none
  | some (a, r1) =>
      match r1 with
      | '.' :: r1b =>
          match parseOctet r1b with
          | none => none
          | some (b, r2) =>
              match r2 with
              | '.' :: r2b =>
                  match parseOctet r2b with
                  | none => none
                  | some (c, r3) =>
                      match r3 with
                      | '.' :: r3b =>
                          match parseOctet r3b with
                          | none => none
                          | some (d, r4) =>
                              if r4 = [] then some (ipv4 a b c d) else none
                      | _ => none
              | _ => none
      | _ => none

/-- The group-reading loop of `parseIPv6`.  `fuel` counts the remaining loop
iterations (the Go loop runs while `j < IPv6len`, and every iteration that
continues has added exactly one 16-bit group, so eight iterations at most);
`acc` is the bytes filled so far and `ell` the ellipsis position.  Returns
the filled bytes, the ellipsis position and the unconsumed rest. -/
def parseIPv6Loop :
    Nat → List Char → List Nat → Option Nat →
      Option (List Nat × Option Nat × List Char)
  | 0, s, acc, ell => some (acc, ell, s)
  | fuel + 1, s, acc, ell =>
      match xtoi s with
      | none => none
      | some (n, rest) =>
          if n > 0xFFFF then none
          else
            match rest with
            | '.' :: _ =>
                -- trailing IPv4: only in the last four bytes, or after `::`
                if ell.isNone ∧ acc.length ≠ 12 then none
                else if acc.length + 4 > 16 then none
                else
                  match parseIPv4 s with
                  | none => none
                  | some ip4 => some (acc ++ ip4.drop 12, ell, [])
            | _ =>
                let acc2 := acc ++ [n / 256, n % 256]
                match rest with
                | [] => some (acc2, ell, [])
                | ':' :: rest2 =>
                    match rest2 with
                    | [] => none
                    | ':' :: rest3 =>
                        if ell.isSome then none
                        else if rest3 = [] then some (acc2, some acc2.length, [])
                        else parseIPv6Loop fuel rest3 acc2 (some acc2.length)
                    | _ => parseIPv6Loop fuel rest2 acc2 ell
                | _ => none

/-- `parseIPv6` (zoneless, as called by `ParseIP`). -/
def parseIPv6 (s : List Char) : Option (List Nat) :=
  let leading : Option (List Char × Option Nat) :=
    match s with
    | ':' :: ':' :: rest => some (rest, some 0)
    | _ => some (s, none)
  match leading with
  | none => none
  | some (s2, ell0) =>
      if s2 = [] ∧ ell0 = some 0 then some (List.replicate 16 0)
      else
        match parseIPv6Loop 8 s2 [] ell0 with
        | none => none
        | some (acc, ell, rest) =>
            if rest ≠ [] then none
            else if acc.length < 16 then
              match ell with
              | none => none
              | some e =>
                  some (acc.take e ++ List.replicate (16 - acc.length) 0 ++
                        acc.drop e)
            else if ell.isSome then none
            else some acc

/-- `net.ParseIP`: dispatch on the first `.` or `:` found in the string. -/
def goParseIPChars : List Char → List Char → Option (List Nat)
  | _, [] => none
  | whole, c :: cs =>
      if c = '.' then parseIPv4 whole
      else if c = ':' then parseIPv6 whole
      else goParseIPChars whole cs

def goParseIP (s : String) : Option (List Nat) := goParseIPChars s.data s.data

/-! ## `IP.String` (Go standard library) -/

/-- `To4`: recognize the IPv4-in-IPv6 form. -/
def ipTo4 (ip : List Nat) : Option (List Nat) :=
  if ip.length = 4 then some ip
  else if ip.take 12 = [0, 0, 0, 0, 0, 0, 0, 0, 0, 0, 0xFF, 0xFF] ∧
          ip.length = 16 then some (ip.drop 12)
  else none

def hexDigit (n : Nat) : Char :=
  if n < 10 then Char.ofNat ('0'.toNat + n) else Char.ofNat ('a'.toNat + n - 10)

/-- Lowercase hex with no leading zeros (`appendHex`). -/
def natToHexAux : Nat → Nat → List Char
  | 0, _ => []
  | fuel + 1, n =>
      if n = 0 then [] else natToHexAux fuel (n / 16) ++ [hexDigit (n % 16)]

def natToHex (n : Nat) : String :=
  if n = 0 then "0" else ⟨natToHexAux 8 n⟩

/-- The 16-bit groups of a 16-byte address. -/
def ipGroups : List Nat → List Nat
  | a :: b :: rest => (a * 256 + b) :: ipGroups rest
  | _ => []

/-- Length of the leading run of zero groups. -/
def countZeroGroups : List Nat → Nat
  | 0 :: rest => countZeroGroups rest + 1
  | _ => 0

/-- The zero-run scan of `IP.String`: over group indices `i`, find the first
longest run of zero groups (`e0`, `e1` are group indices, `e1` exclusive). -/
def bestZeroRun (gs : List Nat) : Nat × Nat :=
  let rec go (i : Nat) (e0 e1 : Nat) (fuel : Nat) : Nat × Nat :=
    match fuel with
    | 0 => (e0, e1)
    | fuel + 1 =>
        if i < gs.length then
          let j := i + countZeroGroups (gs.drop i)
          if j > i ∧ j - i > e1 - e0 then go (j + 1) i j fuel
          else go (i + 1) e0 e1 fuel
        else (e0, e1)
  go 0 0 0 (gs.length + 1)

/-- The output loop of `IP.String` for IPv6, over groups. -/
def ipv6GroupsString (gs : List Nat) : String :=
  let (e0a, e1a) := bestZeroRun gs
  -- "::" must not shorten just one zero group
  let (e0, e1) : Int × Int :=
    if (e1a : Int) - (e0a : Int) ≤ 1 then (-1, -1) else ((e0a : Int), (e1a : Int))
  let rec go (i : Nat) (fuel : Nat) : String :=
    match fuel with
    | 0 => ""
    | fuel + 1 =>
        if i ≥ gs.length then ""
        else if (i : Int) = e0 then
          "::" ++ (if e1.toNat ≥ gs.length then "" else
            natToHex (gs.getD e1.toNat 0) ++ go (e1.toNat + 1) fuel)
        else
          (if i > 0 then ":" else "") ++ natToHex (gs.getD i 0) ++ go (i + 1) fuel
  go 0 (gs.length + 1)

/-- `IP.String`. -/
def ipString (ip : List Nat) : String :=
  if ip = [] then "<nil>"
  else
    match ipTo4 ip with
    | some [a, b, c, d] =>
        toString a ++ "." ++ toString b ++ "." ++ toString c ++ "." ++ toString d
    | _ =>
        if ip.length ≠ 16 then "?" else ipv6GroupsString (ipGroups ip)

/-! ## The host flag (src/easycert.go `hostFlag`, duplicated in
src/cmd_req.go) -/

def errHost : String := "must be an IP or DNS"

/-- `strings.TrimSpace` restricted to ASCII white space. -/
def isGoSpace (c : Char) : Bool :=
  c = ' ' ∨ c = '\t' ∨ c = '\n' ∨ c = '\x0b' ∨ c = '\x0c' ∨ c = '\r'

def trimSpace (s : String) : String :=
  ⟨(s.data.dropWhile isGoSpace).reverse.dropWhile isGoSpace |>.reverse⟩

/-- `strings.Split` on a single comma. -/
def splitComma : List Char → List (List Char)
  | [] => [[]]
  | c :: cs =>
      if c = ',' then [] :: splitComma cs
      else
        match splitComma cs with
        | t :: ts => (c :: t) :: ts
        | [] => [[c]]

structure HostFlag where
  ip : List String
  dns : List String
deriving Repr, DecidableEq

/-- One iteration of the loop body of `hostFlag.Set`. -/
def hostClassify (h : HostFlag) (v0 : String) : Except String HostFlag :=
  let v := trimSpace v0
  match goParseIP v with
  | some ip => .ok { h with ip := h.ip ++ ["IP:" ++ ipString ip] }
  | none =>
      if v.data.contains '.' then .ok { h with dns := h.dns ++ ["DNS:" ++ v] }
      else .error errHost

/-- The loop of `hostFlag.Set` over the comma-separated tokens. -/
def hostFlagSetTokens : HostFlag → List String → Except String HostFlag
  | h, [] => .ok h
  | h, v :: vs =>
      match hostClassify h v with
      | .ok h2 => hostFlagSetTokens h2 vs
      | .error e => .error e

/-- `hostFlag.Set`. -/
def hostFlagSet (h : HostFlag) (value : String) : Except String HostFlag :=
  hostFlagSetTokens h ((splitComma value.data).map (fun cs => (⟨cs⟩ : String)))

/-- `strings.Join`. -/
def goJoin (sep : String) : List String → String
  | [] => ""
  | [s] => s
  | s :: rest => s ++ sep ++ goJoin sep rest

/-- `hostFlag.String`. -/
def HostFlag.string (h : HostFlag) : String :=
  let ip := goJoin ", " h.ip
  let dns := goJoin ", " h.dns
  if ip.length ≠ 0 ∧ dns.length ≠ 0 then ip ++ ", " ++ dns
  else ip ++ dns

/-- The `SubjectAltName` field that `serverConfig` (src/cmd_req.go) renders
into the per-server configuration file. -/
def serverConfigSAN (h : HostFlag) : String :=
  "subjectAltName = " ++ HostFlag.string h

/-! ## `SignReq` (src/cmd_sign.go, the check duplicated in src/easycert.go
`main`) -/

/-- What `SignReq` hands to the external tool and what it leaves on disk. -/
structure SignOutcome where
  opensslArgs : List String
  fs : List String
deriving Repr, DecidableEq

/-- `SignReq` for a certificate name, after `setCertPath name` (the path
computation of `main` in src/easycert.go): fail if the certificate exists;
pick the per-server configuration when one exists; invoke `openssl ca`;
remove the request; remove the per-server configuration when it was used. -/
def SignReq (home : String) (years : Int) (name : String) (fs : List String) :
    Except String SignOutcome :=
  if fileExists fs (certPath home name) then
    .error ("Certificate already exists: " ++ certPath home name)
  else
    let isForServer := fileExists fs (srvConfigPath home name)
    let configFile :=
      if isForServer then srvConfigPath home name else configPath home
    let args := ["ca", "-policy", "policy_anything",
      "-config", configFile, "-in", requestPath home name,
      "-out", certPath home name,
      "-days", toString (365 * years)]
    let fs1 := removeFile fs (requestPath home name)
    let fs2 := if isForServer then removeFile fs1 configFile else fs1
    .ok { opensslArgs := args, fs := fs2 }

/-! ## `runLs` (src/cmd/easycert-wrap/cmd_ls.go)

A directory listing is a list of `(directory, base name)` pairs;
`filepath.Glob(filepath.Join(dir, "*"+ext))` keeps the entries of `dir`
whose base name ends in `ext`, and `printCert` prints base names. -/

def globBase (files : List (String × String)) (dir ext : String) :
    List String :=
  (files.filter (fun f => f.1 = dir ∧ ext.data.isSuffixOf f.2.data)).map
    (fun f => f.2)

structure LsFlags where
  cert : Bool
  req : Bool
  key : Bool
deriving Repr, DecidableEq

/-- `runLs`: without any of `-cert`/`-req`/`-key` all three are switched on;
the result lists the printed groups in order (certificates, requests,
keys). -/
def runLs (home : String) (flags : LsFlags) (files : List (String × String)) :
    List (List String) :=
  let flags :=
    if ¬flags.cert ∧ ¬flags.req ∧ ¬flags.key then
      { cert := true, req := true, key := true }
    else flags
  (if flags.cert then [globBase files (dirPath home).cert EXT_CERT] else []) ++
  (if flags.req then [globBase files (dirPath home).root EXT_REQUEST] else []) ++
  (if flags.key then [globBase files (dirPath home).key EXT_KEY] else [])

/-! ## The `-years` flag for the CA (src/easycert.go `main`, duplicated in
src/cmd_info.go `flagsForNewCert`)

The flag has default 1.  `main` compares `f.DefValue` with
`f.Value.String()` — the decimal strings, which for `int` values agree with
integer equality — and resets `*Years` to 10 when they coincide.  `years` is
the flag's value after parsing: the default 1 when the operator did not pass
`-years`, the passed value otherwise. -/

def yearsAfterParse (overridden : Option Int) : Int := overridden.getD 1

def caEffectiveYears (overridden : Option Int) : Int :=
  let y := yearsAfterParse overridden
  if y = 1 then 10 else y

/-- The `-days` argument `BuildCA` (src/action.go) / `runCA` (src/cmd_ca.go)
hand to the external tool: `strconv.Itoa(365 * *Years)`. -/
def caDays (overridden : Option Int) : Int := 365 * caEffectiveYears overridden

/-! ## `-setup` (src/easycert.go `main` and `Setup`) -/

/-- The paths `Setup` creates: the three directories always, and with `-ca`
also the two extra directories and the index and serial files (the
configuration files rendered from the installed template are kept out of the
model: the template is external data).  `runSetup` is the `-setup` branch of
`main`: fatal when the root exists, `Setup()` otherwise. -/
def setupCreated (home : String) (isCA : Bool) : List String :=
  let d := dirPath home
  [d.root, d.cert, d.key] ++
    (if isCA then [d.newCert, d.revok, indexPath home, serialPath home]
     else [])

def runSetup (home : String) (isCA : Bool) (fs : List String) :
    List String × Option String :=
  if fileExists fs (dirPath home).root then
    (fs, some ("The directory structure exists: " ++ (dirPath home).root))
  else
    (fs ++ setupCreated home isCA, none)

/-! ## CA bookkeeping files (src/easycert.go `Setup`, src/cmd_ca.go `runCA`)

Both creation sites write the serial file with `[]byte{'0', '1', '\n'}` and
create the index file empty. -/

def serialInitContent : List Char := ['0', '1', '\n']
def indexInitContent : List Char := []

/-- The bookkeeping files with their initial contents, as created by the
`*IsCA` branch of `Setup` and by `runCA`. -/
def caBookkeepingFiles (home : String) : List (String × List Char) :=
  [(indexPath home, indexInitContent), (serialPath home, serialInitContent)]

/-! ## Exit codes (src/run.go `openssl`, src/easycert.go `main`,
src/unnamed/part_000 `main`) -/

/-- `openssl` (src/run.go and the identical copies): a failing
`cmd.Wait()` prints the error and calls `os.Exit(1)`; otherwise the captured
standard output is returned.  `some code` models process exit. -/
def opensslWaitExit (waitFails : Bool) : Option Nat :=
  if waitFails then some 1 else none

/-- src/easycert.go `main`: with no flags at all it prints a note and calls
`os.Exit(2)`. -/
def mainNoFlagsExit (nflag : Nat) : Option Nat :=
  if nflag = 0 then some 2 else none

/-- src/unnamed/part_000 `main`: a failing `commands.Parse` prints the error
and calls `os.Exit(2)`. -/
def commandsParseExit (parseFails : Bool) : Option Nat :=
  if parseFails then some 2 else none

/-- src/easycert.go `main`, `-ls` branch: after printing the requested
listings it calls `os.Exit(0)`; without any of `-cert`/`-req`/`-key` it
calls `log.Fatal`, which exits with status 1. -/
def lsBranchExit (isCert isReq isKey : Bool) : Nat :=
  if isCert ∨ isReq ∨ isKey then 0 else 1

/-! ## `GoBlock.String` (src/cmd_lang.go) -/

/-- One `s[i] = …; s[i] += …` assignment of the loop body: the decimal value
followed by `", "`, preceded by a line break at the start of every row of
18. -/
def goBlockEntry (i v : Nat) : String :=
  (if i ≠ 0 ∧ i % 18 = 0 then "\n\t\t" else "") ++ toString v ++ ", "

/-- Drop the last character of the last string of the list (`s[i-1] =
s[i-1][:len(s[i-1])-1]` and the final `s[i] = s[i][:len(s[i])-1]`). -/
def dropLastChar (s : String) : String := ⟨s.data.dropLast⟩

def modifyLastDrop : List String → List String
  | [] => []
  | [s] => [dropLastChar s]
  | s :: rest => s :: modifyLastDrop rest

/-- The `for i, v := range b` loop of `GoBlock.String`, with the running
index: at every multiple of 18 the previous entry loses its trailing
space. -/
def goBlockLoop : Nat → List String → List Nat → List String
  | _, acc, [] => acc
  | i, acc, v :: vs =>
      let acc2 := if i ≠ 0 ∧ i % 18 = 0 then modifyLastDrop acc else acc
      goBlockLoop (i + 1) (acc2 ++ [goBlockEntry i v]) vs

/-- `GoBlock.String`.  The final `s[len(s)-1] = …` indexes position `-1`
when the block is empty, a panic; `none` models it. -/
def goBlockString (b : List Nat) : Option String :=
  let s := goBlockLoop 0 [] b
  match s with
  | [] => none
  | _ =>
      some ("[]byte\x7b\n\t\t" ++ String.join (modifyLastDrop s) ++ "\n\t\x7d")

/-! ## Specification-side definitions

These restate properties claimed of the program; the theorems below relate
them to the definitions translated from the source. -/

/-- The `IP:` entries a token list produces, in token order. -/
def ipEntriesSpec (tokens : List String) : List String :=
  tokens.filterMap
    (fun v => (goParseIP (trimSpace v)).map (fun ip => "IP:" ++ ipString ip))

/-- The `DNS:` entries a token list produces, in token order. -/
def dnsEntriesSpec (tokens : List String) : List String :=
  tokens.filterMap (fun v =>
    match goParseIP (trimSpace v) with
    | some _ => none
    | none =>
        if (trimSpace v).data.contains '.' then some ("DNS:" ++ trimSpace v)
        else none)

/-- The expected rendering of the `i`-th of `n` byte values in a generated
`[]byte` literal: the decimal value, preceded by a line break at the start of
every row of 18, and followed by `", "` — trimmed to a bare comma at the end
of a row and at the very end of the block. -/
def goBlockEntrySpec (n i v : Nat) : String :=
  (if i ≠ 0 ∧ i % 18 = 0 then "\n\t\t" else "") ++ toString v ++
    (if i + 1 = n ∨ (18 ∣ (i + 1) ∧ i + 1 < n) then "," else ", ")

def goBlockSpecEntries (n : Nat) : Nat → List Nat → List String
  | _, [] => []
  | i, v :: vs => goBlockEntrySpec n i v :: goBlockSpecEntries n (i + 1) vs

/-- Intermediate form of the `GoBlock.String` loop result: each entry
carries the truncation that the *next* iteration applies to it (the final
truncation of the last entry is not included). -/
def goBlockEntries : Nat → List Nat → List String
  | _, [] => []
  | i, v :: vs =>
      match vs with
      | [] => [goBlockEntry i v]
      | _ :: _ =>
          (if (i + 1) % 18 = 0 then dropLastChar (goBlockEntry i v)
           else goBlockEntry i v) :: goBlockEntries (i + 1) vs

end EasyCert

namespace EasyCert

/-! ## Helper lemmas -/

theorem modifyLastDrop_append_singleton (xs : List String) (y : String) :
    modifyLastDrop (xs ++ [y]) = xs ++ [dropLastChar y] := by
  induction xs with
  | nil => rfl
  | cons x xs ih =>
      cases xs with
      | nil => rfl
      | cons x2 xs2 => simpa [modifyLastDrop] using ih

theorem dropLastChar_append_sep (a : String) :
    dropLastChar (a ++ ", ") = a ++ "," := by
  apply String.ext
  show (a ++ ", ").data.dropLast = (a ++ ",").data
  have h1 : (a ++ ", ").data = (a.data ++ [',']) ++ [' '] := by
    simp [String.data_append]
  rw [h1, List.dropLast_concat]
  simp [String.data_append]

theorem fileExists_removeFile (fs : List String) (p : String) :
    fileExists (removeFile fs p) p = false := by
  simp only [fileExists, removeFile, List.contains_eq_any_beq, List.any_eq_false]
  intro x hx
  have hne := List.of_mem_filter hx
  simp only [ne_eq, decide_not, Bool.not_eq_true', decide_eq_false_iff_not] at hne
  simp only [beq_iff_eq]
  exact fun hpx => hne hpx.symm

theorem goJoin_append (a b : List String) (ha : a ≠ []) (hb : b ≠ []) :
    goJoin ", " (a ++ b) = goJoin ", " a ++ ", " ++ goJoin ", " b := by
  induction a with
  | nil => exact absurd rfl ha
  | cons x xs ih =>
      cases xs with
      | nil =>
          cases b with
          | nil => exact absurd rfl hb
          | cons y ys => simp [goJoin]
      | cons x2 xs2 =>
          have h2 := ih (by simp)
          simp only [List.cons_append] at h2 ⊢
          simp only [goJoin]
          rw [h2]
          simp [String.append_assoc]

theorem goJoin_cons_length (x : String) (xs : List String) :
    x.length ≤ (goJoin ", " (x :: xs)).length := by
  cases xs with
  | nil => simp [goJoin]
  | cons y ys =>
      simp only [goJoin, String.length_append]
      omega

theorem fileExists_removeFile_of_not (fs : List String) (p q : String)
    (h : fileExists fs p = false) :
    fileExists (removeFile fs q) p = false := by
  simp only [fileExists, removeFile, List.contains_eq_any_beq,
    List.any_eq_false] at h ⊢
  exact fun x hx => h x (List.mem_of_mem_filter hx)

theorem modifyLastDrop_cons (x : String) (l : List String) (hl : l ≠ []) :
    modifyLastDrop (x :: l) = x :: modifyLastDrop l := by
  cases l with
  | nil => exact absurd rfl hl
  | cons y ys => rfl

theorem goBlockEntries_ne_nil (i v : Nat) (vs : List Nat) :
    goBlockEntries i (v :: vs) ≠ [] := by
  cases vs <;> simp [goBlockEntries]

theorem goBlockSpecEntries_length (vs : List Nat) :
    ∀ (n i : Nat), (goBlockSpecEntries n i vs).length = vs.length := by
  induction vs with
  | nil => intro n i; rfl
  | cons v vs ih =>
      intro n i
      simp [goBlockSpecEntries, ih]

theorem ipEntriesSpec_shape (tokens : List String) :
    ∀ e ∈ ipEntriesSpec tokens, ∃ s, e = "IP:" ++ s := by
  intro e he
  simp only [ipEntriesSpec, List.mem_filterMap] at he
  obtain ⟨v, _, hfe⟩ := he
  cases hp : goParseIP (trimSpace v) with
  | none => rw [hp] at hfe; cases hfe
  | some ip =>
      rw [hp] at hfe
      simp only [Option.map_some'] at hfe
      exact ⟨ipString ip, (Option.some_inj.mp hfe).symm⟩

theorem dnsEntriesSpec_shape (tokens : List String) :
    ∀ e ∈ dnsEntriesSpec tokens, ∃ s, e = "DNS:" ++ s := by
  intro e he
  simp only [dnsEntriesSpec, List.mem_filterMap] at he
  obtain ⟨v, _, hfe⟩ := he
  cases hp : goParseIP (trimSpace v) with
  | some ip => rw [hp] at hfe; cases hfe
  | none =>
      rw [hp] at hfe
      by_cases hc : (trimSpace v).data.contains '.' = true
      · rw [if_pos hc] at hfe
        exact ⟨trimSpace v, (Option.some_inj.mp hfe).symm⟩
      · rw [if_neg hc] at hfe
        cases hfe

theorem hostFlagSetTokens_partition (tokens : List String) :
    ∀ (h h2 : HostFlag), hostFlagSetTokens h tokens = .ok h2 →
      h2.ip = h.ip ++ ipEntriesSpec tokens ∧
      h2.dns = h.dns ++ dnsEntriesSpec tokens := by
  induction tokens with
  | nil =>
      intro h h2 hok
      simp only [hostFlagSetTokens, Except.ok.injEq] at hok
      subst hok
      simp [ipEntriesSpec, dnsEntriesSpec]
  | cons v vs ih =>
      intro h h2 hok
      simp only [hostFlagSetTokens] at hok
      cases hcl : hostClassify h v with
      | error e => rw [hcl] at hok; cases hok
      | ok h1 =>
          rw [hcl] at hok
          obtain ⟨hip, hdns⟩ := ih h1 h2 hok
          simp only [hostClassify] at hcl
          cases hp : goParseIP (trimSpace v) with
          | some ip =>
              rw [hp] at hcl
              simp only [Except.ok.injEq] at hcl
              subst hcl
              rw [hip, hdns]
              simp [ipEntriesSpec, dnsEntriesSpec, List.filterMap_cons, hp]
          | none =>
              rw [hp] at hcl
              by_cases hc : (trimSpace v).data.contains '.' = true
              · rw [if_pos hc] at hcl
                simp only [Except.ok.injEq] at hcl
                subst hcl
                rw [hip, hdns]
                have hcm : '.' ∈ (trimSpace v).data := by
                  rcases List.contains_iff_exists_mem_beq.mp hc with
                    ⟨x, hx, hbeq⟩
                  rwa [beq_iff_eq.mp hbeq]
                simp [ipEntriesSpec, dnsEntriesSpec, List.filterMap_cons, hp,
                  hcm]
              · rw [if_neg hc] at hcl
                cases hcl

theorem dropLastChar_goBlockEntry (i v : Nat) :
    dropLastChar (goBlockEntry i v) =
      (if i ≠ 0 ∧ i % 18 = 0 then "\n\t\t" else "") ++ toString v ++ "," := by
  unfold goBlockEntry
  rw [dropLastChar_append_sep]

theorem goBlockLoop_cons (i : Nat) (acc : List String) (v : Nat)
    (vs : List Nat) :
    goBlockLoop i acc (v :: vs) =
      goBlockLoop (i + 1)
        ((if i ≠ 0 ∧ i % 18 = 0 then modifyLastDrop acc else acc) ++
          [goBlockEntry i v]) vs := rfl

theorem goBlockEntries_cons_cons (i v w : Nat) (ws : List Nat) :
    goBlockEntries i (v :: w :: ws) =
      (if (i + 1) % 18 = 0 then dropLastChar (goBlockEntry i v)
       else goBlockEntry i v) :: goBlockEntries (i + 1) (w :: ws) := rfl

theorem goBlockLoop_eq (vs : List Nat) :
    ∀ (i : Nat) (acc : List String), vs ≠ [] →
      goBlockLoop i acc vs =
        (if i ≠ 0 ∧ i % 18 = 0 then modifyLastDrop acc else acc) ++
          goBlockEntries i vs := by
  induction vs with
  | nil => intro i acc h; exact absurd rfl h
  | cons v vs ih =>
      intro i acc _
      cases vs with
      | nil => simp only [goBlockLoop, goBlockEntries]
      | cons w ws =>
          rw [goBlockLoop_cons]
          rw [ih (i + 1) _ (by simp)]
          rw [goBlockEntries_cons_cons]
          by_cases h18 : (i + 1) % 18 = 0
          · rw [if_pos h18,
              if_pos (⟨Nat.succ_ne_zero i, h18⟩ :
                (i + 1) ≠ 0 ∧ (i + 1) % 18 = 0),
              modifyLastDrop_append_singleton]
            simp [List.append_assoc]
          · rw [if_neg h18,
              if_neg (fun hc : (i + 1) ≠ 0 ∧ (i + 1) % 18 = 0 => h18 hc.2)]
            simp [List.append_assoc]

theorem modifyLastDrop_goBlockEntries (vs : List Nat) :
    ∀ (i n : Nat), i + vs.length = n → vs ≠ [] →
      modifyLastDrop (goBlockEntries i vs) = goBlockSpecEntries n i vs := by
  induction vs with
  | nil => intro i n _ h; exact absurd rfl h
  | cons v vs ih =>
      intro i n hn _
      cases vs with
      | nil =>
          have hin : i + 1 = n := by simpa using hn
          simp only [goBlockEntries, modifyLastDrop, goBlockSpecEntries]
          rw [dropLastChar_goBlockEntry]
          unfold goBlockEntrySpec
          rw [if_pos (Or.inl hin)]
      | cons w ws =>
          have hlt : i + 1 < n := by
            simp only [List.length_cons] at hn
            omega
          rw [goBlockEntries_cons_cons]
          rw [modifyLastDrop_cons _ _ (goBlockEntries_ne_nil (i + 1) w ws)]
          rw [ih (i + 1) n (by simp only [List.length_cons] at hn ⊢; omega)
            (by simp)]
          simp only [goBlockSpecEntries]
          congr 1
          by_cases h18 : (i + 1) % 18 = 0
          · rw [if_pos h18, dropLastChar_goBlockEntry]
            unfold goBlockEntrySpec
            rw [if_pos (Or.inr ⟨by omega, hlt⟩)]
          · rw [if_neg h18]
            have hcond : ¬(i + 1 = n ∨ 18 ∣ (i + 1) ∧ i + 1 < n) := by
              rintro (h | ⟨hd, _⟩) <;> omega
            unfold goBlockEntry goBlockEntrySpec
            rw [if_neg hcond]

/-! ## Claim theorems -/

/-- C2: for every string the RSA key-size flag setter receives, if it parses
to an integer then a value below 2048 is rejected with the minimum-size
error, an (otherwise acceptable) value not a multiple of 1024 is rejected
with the multiple-of-1024 error, and every other parsed value is accepted
and stored; on rejection the stored size is unchanged. -/
theorem rsaSizeSet_spec (s : Int) (value : String) (i : Int)
    (hp : goAtoi value = some i) :
    (i < 2048 → rsaSizeSet s value = (s, some errMinSize)) ∧
    (2048 ≤ i → i % 1024 ≠ 0 → rsaSizeSet s value = (s, some errSize)) ∧
    (2048 ≤ i → i % 1024 = 0 → rsaSizeSet s value = (i, none)) := by
  unfold rsaSizeSet
  rw [hp]
  refine ⟨fun h1 => ?_, fun h1 h2 => ?_, fun h1 h2 => ?_⟩ <;> simp_all

/-- C2 witness: 2048 and 4096 are accepted, 1000 is rejected with the
minimum-size error and the stored size stays 2048, 3000 is rejected with the
multiple-of-1024 error. -/
theorem rsaSizeSet_spec_witness :
    rsaSizeSet 2048 "2048" = (2048, none) ∧
    rsaSizeSet 2048 "4096" = (4096, none) ∧
    rsaSizeSet 2048 "1000" = (2048, some errMinSize) ∧
    rsaSizeSet 2048 "3000" = (2048, some errSize) :=
  ⟨(rsaSizeSet_spec 2048 "2048" 2048 (by decide)).2.2 (by decide) (by decide),
   (rsaSizeSet_spec 2048 "4096" 4096 (by decide)).2.2 (by decide) (by decide),
   (rsaSizeSet_spec 2048 "1000" 1000 (by decide)).1 (by decide),
   (rsaSizeSet_spec 2048 "3000" 3000 (by decide)).2.1 (by decide) (by decide)⟩

/-- C3: `ls` with none of the filter flags lists all three categories
(certificates, requests, keys, in that order); with only `-cert` it lists
only the base names matching `*.crt` in the certificates directory. -/
theorem runLs_spec (home : String) (files : List (String × String)) :
    runLs home ⟨false, false, false⟩ files =
      [globBase files (dirPath home).cert EXT_CERT,
       globBase files (dirPath home).root EXT_REQUEST,
       globBase files (dirPath home).key EXT_KEY] ∧
    runLs home ⟨true, false, false⟩ files =
      [globBase files (dirPath home).cert EXT_CERT] := by
  constructor <;> rfl

/-- C4 counterexample: overriding the years flag with 1 — the flag's
default — does not make the external signer run with `-days 365*1`: the
default-detection of `main` compares the flag's value with its default
string and resets the validity to 10 years, so the `-days` argument is
3650. -/
theorem caDays_override_one_counterexample :
    caDays (some 1) = 3650 ∧ caDays (some 1) ≠ 365 * 1 := by decide

/-- C4 (amended): without the years flag the CA validity is 10 years
(`-days` is `365*10`); when the operator overrides the flag with any value
other than the default 1, the overridden value is used. -/
theorem caDays_amended_spec (y : Int) (hy : y ≠ 1) :
    caDays none = 365 * 10 ∧ caDays (some y) = 365 * y := by
  refine ⟨by decide, ?_⟩
  simp [caDays, caEffectiveYears, yearsAfterParse, hy]

/-- C4 witness: overriding with 3 yields `-days 1095`. -/
theorem caDays_amended_spec_witness :
    caDays none = 365 * 10 ∧ caDays (some 3) = 365 * 3 :=
  caDays_amended_spec 3 (by decide)

/-- C5: `-setup` fails whenever the root directory already exists, leaving
the filesystem unchanged, and creates the directory tree exactly when the
root does not exist. -/
theorem runSetup_spec (home : String) (isCA : Bool) (fs : List String) :
    (fileExists fs (dirPath home).root = true →
      runSetup home isCA fs =
        (fs, some ("The directory structure exists: " ++ (dirPath home).root))) ∧
    (fileExists fs (dirPath home).root = false →
      runSetup home isCA fs = (fs ++ setupCreated home isCA, none)) := by
  unfold runSetup
  constructor <;> intro h <;> simp [h]

/-- C5 witness: over an empty filesystem the tree is created; re-running
over the result fails and changes nothing. -/
theorem runSetup_spec_witness :
    runSetup "/h" true [] = (setupCreated "/h" true, none) ∧
    runSetup "/h" true (setupCreated "/h" true) =
      (setupCreated "/h" true,
       some ("The directory structure exists: " ++ (dirPath "/h").root)) :=
  ⟨(runSetup_spec "/h" true []).2 (by decide),
   (runSetup_spec "/h" true (setupCreated "/h" true)).1 (by decide)⟩

/-- C7 counterexample: the serial counter file is not created holding the
two-character string `"01"`: the write is `[]byte{'0', '1', '\n'}`, three
bytes. -/
theorem serialInit_counterexample :
    (caBookkeepingFiles "/h").lookup (serialPath "/h") ≠ some "01".data := by
  decide

/-- C7 (amended): when the CA bookkeeping files are created (by `setup`
with `-ca`, or by the `ca` command), the serial counter file is initialized
to the string `"01"` followed by a newline, and the index file is created
empty. -/
theorem caBookkeeping_spec (home : String) :
    (caBookkeepingFiles home).lookup (serialPath home) =
      some ("01".data ++ ['\n']) ∧
    (caBookkeepingFiles home).lookup (indexPath home) = some [] := by
  have hne : serialPath home ≠ indexPath home := by
    intro h
    have h2 := congrArg String.length h
    have h6 : ("serial" : String).length = 6 := rfl
    have h9 : ("index.txt" : String).length = 9 := rfl
    simp only [serialPath, indexPath, pathJoin, String.length_append, h6, h9]
      at h2
    omega
  constructor
  · simp only [caBookkeepingFiles, List.lookup,
      beq_eq_false_iff_ne.mpr hne, beq_self_eq_true]
    rfl
  · simp [caBookkeepingFiles, List.lookup, indexInitContent]

/-- C8: the process exit code is 0 on success (the `-ls` branch with a
filter flag ends in `os.Exit(0)`), 1 when the wait on the spawned external
tool returns an error, and 2 on usage error: no flags at all, or a failing
subcommand parse. -/
theorem exitCodes_spec (nflag : Nat) (waitFails parseFails : Bool)
    (isCert isReq isKey : Bool) :
    (nflag = 0 → mainNoFlagsExit nflag = some 2) ∧
    (nflag ≠ 0 → mainNoFlagsExit nflag = none) ∧
    (waitFails = true → opensslWaitExit waitFails = some 1) ∧
    (waitFails = false → opensslWaitExit waitFails = none) ∧
    (parseFails = true → commandsParseExit parseFails = some 2) ∧
    ((isCert ∨ isReq ∨ isKey) → lsBranchExit isCert isReq isKey = 0) := by
  refine ⟨?_, ?_, ?_, ?_, ?_, ?_⟩ <;> intro h <;>
    simp [mainNoFlagsExit, opensslWaitExit, commandsParseExit, lsBranchExit, h]

/-- C1: for every name, `sign` fails when the target certificate file
already exists; on success it hands the external tool `-out` followed by
the conventional certificate path, removes the pending `.csr` request file,
and removes the per-server `.cfg` configuration when one exists for that
name. -/
theorem signReq_spec (home : String) (years : Int) (name : String)
    (fs : List String) :
    (fileExists fs (certPath home name) = true →
      SignReq home years name fs =
        .error ("Certificate already exists: " ++ certPath home name)) ∧
    (fileExists fs (certPath home name) = false →
      ∃ out, SignReq home years name fs = .ok out ∧
        List.IsInfix ["-out", certPath home name] out.opensslArgs ∧
        fileExists out.fs (requestPath home name) = false ∧
        (fileExists fs (srvConfigPath home name) = true →
          fileExists out.fs (srvConfigPath home name) = false)) := by
  constructor
  · intro h
    unfold SignReq
    simp [h]
  · intro h
    unfold SignReq
    simp only [h, Bool.false_eq_true, if_false]
    refine ⟨_, rfl, ?_, ?_, ?_⟩
    · exact ⟨["ca", "-policy", "policy_anything", "-config",
        if fileExists fs (srvConfigPath home name) then srvConfigPath home name
        else configPath home, "-in", requestPath home name],
        ["-days", toString (365 * years)], rfl⟩
    · by_cases hs : fileExists fs (srvConfigPath home name) = true
      · simp only [hs, if_true]
        exact fileExists_removeFile_of_not _ _ _
          (fileExists_removeFile fs (requestPath home name))
      · simp only [Bool.not_eq_true] at hs
        simp only [hs, Bool.false_eq_true, if_false]
        exact fileExists_removeFile fs (requestPath home name)
    · intro hs
      simp only [hs, if_true]
      exact fileExists_removeFile _ (srvConfigPath home name)

/-- C1 witness: with a pending request and a per-server configuration,
signing succeeds, names the conventional certificate path after `-out`,
and removes both files; with the certificate already present it fails. -/
theorem signReq_spec_witness :
    (∃ out,
      SignReq "/h" 1 "example"
          [requestPath "/h" "example", srvConfigPath "/h" "example"] =
        .ok out ∧
      List.IsInfix ["-out", certPath "/h" "example"] out.opensslArgs ∧
      fileExists out.fs (requestPath "/h" "example") = false ∧
      (fileExists [requestPath "/h" "example", srvConfigPath "/h" "example"]
          (srvConfigPath "/h" "example") = true →
        fileExists out.fs (srvConfigPath "/h" "example") = false)) ∧
    SignReq "/h" 1 "example" [certPath "/h" "example"] =
      .error ("Certificate already exists: " ++ certPath "/h" "example") :=
  ⟨(signReq_spec "/h" 1 "example"
      [requestPath "/h" "example", srvConfigPath "/h" "example"]).2 (by decide),
   (signReq_spec "/h" 1 "example" [certPath "/h" "example"]).1 (by decide)⟩

/-- C6: each comma-separated host token (after trimming) that parses as an
IP literal is appended to the IP entries, each non-IP token containing a
dot is appended to the DNS entries, and a token that is neither causes the
error "must be an IP or DNS"; in particular `"10.0.0.1,example.com"`
classifies the first token as an IP and the second as a DNS name. -/
theorem hostClassify_spec (h : HostFlag) (v : String) :
    (∀ ip, goParseIP (trimSpace v) = some ip →
      hostClassify h v = .ok { h with ip := h.ip ++ ["IP:" ++ ipString ip] }) ∧
    (goParseIP (trimSpace v) = none →
      (trimSpace v).data.contains '.' = true →
      hostClassify h v =
        .ok { h with dns := h.dns ++ ["DNS:" ++ trimSpace v] }) ∧
    (goParseIP (trimSpace v) = none →
      (trimSpace v).data.contains '.' = false →
      hostClassify h v = .error errHost) ∧
    hostFlagSet ⟨[], []⟩ "10.0.0.1,example.com" =
      .ok ⟨["IP:10.0.0.1"], ["DNS:example.com"]⟩ := by
  refine ⟨?_, ?_, ?_, by rfl⟩
  · intro ip hip
    simp [hostClassify, hip]
  · intro h1 h2
    have h2m : '.' ∈ (trimSpace v).data := by
      rcases List.contains_iff_exists_mem_beq.mp h2 with ⟨x, hx, hbeq⟩
      rwa [beq_iff_eq.mp hbeq]
    simp [hostClassify, h1, h2m]
  · intro h1 h2
    have h2m : '.' ∉ (trimSpace v).data := by
      intro hmem
      rw [List.contains_iff_exists_mem_beq.mpr ⟨'.', hmem, beq_self_eq_true '.'⟩]
        at h2
      cases h2
    simp [hostClassify, h1, h2m]

/-- C6 witness: the three classifications at concrete tokens. -/
theorem hostClassify_spec_witness :
    hostClassify ⟨[], []⟩ "10.0.0.1" = .ok ⟨["IP:10.0.0.1"], []⟩ ∧
    hostClassify ⟨[], []⟩ "example.com" = .ok ⟨[], ["DNS:example.com"]⟩ ∧
    hostClassify ⟨[], []⟩ "localhost" = .error errHost :=
  ⟨((hostClassify_spec ⟨[], []⟩ "10.0.0.1").1
      [0, 0, 0, 0, 0, 0, 0, 0, 0, 0, 255, 255, 10, 0, 0, 1] rfl).trans
    (by rfl),
   ((hostClassify_spec ⟨[], []⟩ "example.com").2.1 rfl rfl).trans (by rfl),
   (hostClassify_spec ⟨[], []⟩ "localhost").2.2.1 rfl rfl⟩

/-- C10: for every token list the host flag accepts, `String()` renders all
IP entries (prefixed `IP:`, the address normalized by the IP parser) before
all DNS entries (prefixed `DNS:`), joined by `", "`, regardless of the
order the tokens were supplied in; the per-server configuration's
`subjectAltName` line is exactly this string. -/
theorem hostFlag_string_spec (tokens : List String) (h2 : HostFlag)
    (hok : hostFlagSetTokens ⟨[], []⟩ tokens = .ok h2) :
    HostFlag.string h2 =
      goJoin ", " (ipEntriesSpec tokens ++ dnsEntriesSpec tokens) ∧
    (∀ e ∈ ipEntriesSpec tokens, ∃ s, e = "IP:" ++ s) ∧
    (∀ e ∈ dnsEntriesSpec tokens, ∃ s, e = "DNS:" ++ s) ∧
    serverConfigSAN h2 = "subjectAltName = " ++ HostFlag.string h2 := by
  obtain ⟨hip, hdns⟩ := hostFlagSetTokens_partition tokens ⟨[], []⟩ h2 hok
  simp only [List.nil_append] at hip hdns
  refine ⟨?_, ipEntriesSpec_shape tokens, dnsEntriesSpec_shape tokens, rfl⟩
  rcases hipc : ipEntriesSpec tokens with _ | ⟨x, xs⟩
  · rcases hdnsc : dnsEntriesSpec tokens with _ | ⟨y, ys⟩ <;>
      simp [HostFlag.string, hip, hdns, hipc, hdnsc, goJoin]
  · rcases hdnsc : dnsEntriesSpec tokens with _ | ⟨y, ys⟩
    · simp [HostFlag.string, hip, hdns, hipc, hdnsc, goJoin]
    · obtain ⟨sx, hx⟩ := ipEntriesSpec_shape tokens x
        (by rw [hipc]; exact List.mem_cons_self x xs)
      obtain ⟨sy, hy⟩ := dnsEntriesSpec_shape tokens y
        (by rw [hdnsc]; exact List.mem_cons_self y ys)
      have hxl : (goJoin ", " (x :: xs)).length ≠ 0 := by
        have h1 := goJoin_cons_length x xs
        have h2 : x.length = ("IP:" : String).length + sx.length := by
          rw [hx, String.length_append]
        have h3 : ("IP:" : String).length = 3 := rfl
        omega
      have hyl : (goJoin ", " (y :: ys)).length ≠ 0 := by
        have h1 := goJoin_cons_length y ys
        have h2 : y.length = ("DNS:" : String).length + sy.length := by
          rw [hy, String.length_append]
        have h3 : ("DNS:" : String).length = 4 := rfl
        omega
      simp only [HostFlag.string, hip, hdns, hipc, hdnsc]
      rw [if_pos ⟨hxl, hyl⟩]
      exact (goJoin_append (x :: xs) (y :: ys) (by simp) (by simp)).symm

/-- C10 witness: supplying the DNS token before the IP token still renders
the IP entry first. -/
theorem hostFlag_string_spec_witness :
    HostFlag.string ⟨["IP:10.0.0.1"], ["DNS:example.com"]⟩ =
      goJoin ", " (ipEntriesSpec ["example.com", "10.0.0.1"] ++
        dnsEntriesSpec ["example.com", "10.0.0.1"]) ∧
    serverConfigSAN ⟨["IP:10.0.0.1"], ["DNS:example.com"]⟩ =
      "subjectAltName = " ++
        HostFlag.string ⟨["IP:10.0.0.1"], ["DNS:example.com"]⟩ :=
  ⟨(hostFlag_string_spec ["example.com", "10.0.0.1"]
      ⟨["IP:10.0.0.1"], ["DNS:example.com"]⟩ rfl).1,
   (hostFlag_string_spec ["example.com", "10.0.0.1"]
      ⟨["IP:10.0.0.1"], ["DNS:example.com"]⟩ rfl).2.2.2⟩

/-- C9: for every non-empty byte list, `GoBlock.String` returns the Go
`[]byte` literal built from one decimal value per input byte in order, a
line break starting every row of 18, and the trailing `", "` separator
trimmed to a bare comma at row ends and at the very end; the empty list is
outside the precondition (the final trimming step indexes position `-1`,
modelled as `none`). -/
theorem goBlockString_spec (b : List Nat) (hb : b ≠ []) :
    goBlockString b =
      some ("[]byte\x7b\n\t\t" ++
        String.join (goBlockSpecEntries b.length 0 b) ++ "\n\t\x7d") ∧
    (goBlockSpecEntries b.length 0 b).length = b.length ∧
    goBlockString [] = none := by
  refine ⟨?_, goBlockSpecEntries_length b b.length 0, rfl⟩
  unfold goBlockString
  rw [goBlockLoop_eq b 0 [] hb]
  simp only [ne_eq, not_true_eq_false, false_and, if_false, List.nil_append]
  cases b with
  | nil => exact absurd rfl hb
  | cons v vs =>
      cases hE : goBlockEntries 0 (v :: vs) with
      | nil => exact absurd hE (goBlockEntries_ne_nil 0 v vs)
      | cons x xs =>
          show some ("[]byte\x7b\n\t\t" ++
            String.join (modifyLastDrop (x :: xs)) ++ "\n\t\x7d") = _
          rw [← hE,
            modifyLastDrop_goBlockEntries (v :: vs) 0 (v :: vs).length
              (by simp) (by simp)]

/-- C9 witness: a two-byte block renders both values, and the empty block
is rejected. -/
theorem goBlockString_spec_witness :
    goBlockString [7, 8] =
      some ("[]byte\x7b\n\t\t" ++
        String.join (goBlockSpecEntries 2 0 [7, 8]) ++ "\n\t\x7d") ∧
    goBlockString [] = none :=
  ⟨(goBlockString_spec [7, 8] (by decide)).1,
   (goBlockString_spec [7, 8] (by decide)).2.2⟩

/-- C8 witness at concrete inputs. -/
theorem exitCodes_spec_witness :
    mainNoFlagsExit 0 = some 2 ∧ opensslWaitExit true = some 1 ∧
    commandsParseExit true = some 2 ∧ lsBranchExit true false false = 0 :=
  ⟨(exitCodes_spec 0 true true true false false).1 rfl,
   (exitCodes_spec 0 true true true false false).2.2.1 rfl,
   (exitCodes_spec 0 true true true false false).2.2.2.2.1 rfl,
   (exitCodes_spec 0 true true true false false).2.2.2.2.2 (Or.inl rfl)⟩

end EasyCert
